import Mathlib

/-!
Shallow embedding of `src/utility.js` (date parsing and age helpers for a
Memento-style record utility).

Modelling conventions:

* A JavaScript `Date` object is a timestamp.  We model it as an `Int` counting
  seconds since the Unix epoch (the source never uses sub-second precision).
  An *invalid* `Date` (one whose time value is `NaN`) is modelled by `none`,
  so a JS `Date` value is `JSDate := Option Int`.
* Field accessors (`getFullYear`, `getMonth`, `getDate`, `getHours`, …) and the
  `new Date(year, month, day, hour, minute, second)` constructor follow the
  ECMAScript `MakeDay`/`MakeTime` algorithms on the proleptic Gregorian
  calendar, including the normalization of out-of-range fields and the mapping
  of constructor years 0–99 to 1900–1999.  Local-time offsets cancel between
  construction and the accessors, so they are omitted.
* The civil-calendar conversions use the standard days-from-civil /
  civil-from-days algorithms with floor division (`Int` division and modulus
  with a positive divisor are floor division and its remainder).
* The host's free-form string parser `new Date(string)` is not code of this
  repository; theorems about `getAge` quantify over an arbitrary such parser
  `jsParse : String → Option Int`.
* The current system time `new Date()` is likewise passed as a parameter.
-/

/-- A JavaScript `Date` value: `some t` is a valid instant with time value `t`
seconds since the epoch, `none` is an invalid date (`NaN` time value). -/
abbrev JSDate := Option Int

/-- Inputs accepted by the utility functions: either an existing `Date` object
or a string. -/
inductive DateInput where
  | date (d : JSDate)
  | str (s : String)
deriving DecidableEq

/-! ### Civil calendar arithmetic (ECMAScript `Date` semantics) -/

/-- Day count since 1970-01-01 of the civil date `(y, m, d)` with `m ∈ [1,12]`
(days-from-civil, floor-division form). -/
def daysFromCivil (y m d : Int) : Int :=
  let y2 := if m ≤ 2 then y - 1 else y
  let era := y2 / 400
  let yoe := y2 - era * 400
  let mp := (m + 9) % 12
  let doy := (153 * mp + 2) / 5 + d - 1
  let doe := yoe * 365 + yoe / 4 - yoe / 100 + doy
  era * 146097 + doe - 719468

/-- Civil date `(y, m, d)` of a day count since 1970-01-01
(civil-from-days, floor-division form). -/
def civilFromDays (z0 : Int) : Int × Int × Int :=
  let z := z0 + 719468
  let era := z / 146097
  let doe := z - era * 146097
  let yoe := (doe - doe / 1460 + doe / 36524 - doe / 146096) / 365
  let y := yoe + era * 400
  let doy := doe - (365 * yoe + yoe / 4 - yoe / 100)
  let mp := (5 * doy + 2) / 153
  let d := doy - (153 * mp + 2) / 5 + 1
  let m := if mp < 10 then mp + 3 else mp - 9
  (if m ≤ 2 then y + 1 else y, m, d)

/-- Day-number part of a timestamp (ECMAScript `Day(t)`). -/
def dayNumber (t : Int) : Int := t / 86400

/-- Second-within-day part of a timestamp (always in `[0, 86400)`). -/
def secondOfDay (t : Int) : Int := t % 86400

/-- `Date.prototype.getFullYear`. -/
def getFullYear (t : Int) : Int := (civilFromDays (dayNumber t)).1

/-- `Date.prototype.getMonth` (0-indexed, as in JavaScript). -/
def getMonth (t : Int) : Int := (civilFromDays (dayNumber t)).2.1 - 1

/-- `Date.prototype.getDate` (day of month, 1-indexed). -/
def getDate (t : Int) : Int := (civilFromDays (dayNumber t)).2.2

/-- `Date.prototype.getHours`. -/
def getHours (t : Int) : Int := secondOfDay t / 3600

/-- `Date.prototype.getMinutes`. -/
def getMinutes (t : Int) : Int := secondOfDay t % 3600 / 60

/-- `Date.prototype.getSeconds`. -/
def getSeconds (t : Int) : Int := secondOfDay t % 60

/-- The `new Date(year, month, day, hour, minute, second)` constructor
(ECMAScript `MakeDay`/`MakeTime`/`MakeDate`): `month` is 0-indexed and may be
out of range (it carries into the year), `day`/`hour`/`minute`/`second` may be
out of range (they carry via day-number and second arithmetic), and a year in
`[0, 99]` is interpreted as `1900 + year`. -/
def mkDate (y m0 d h mi s : Int) : Int :=
  let yr := if 0 ≤ y ∧ y ≤ 99 then 1900 + y else y
  let ym := yr + m0 / 12
  let mn := m0 % 12
  (daysFromCivil ym (mn + 1) 1 + (d - 1)) * 86400 + h * 3600 + mi * 60 + s

/-! ### The structured-text parser `parseJapaneseDateString` -/

/-- Numeric value of a list of decimal digit characters
(`parseInt(s, 10)` on a regex `\d+` capture). -/
def digitsToNat (l : List Char) : Nat :=
  l.foldl (fun a c => 10 * a + (c.toNat - 48)) 0

/-- Longest prefix of decimal digits and the rest of the input. -/
def takeDigits : List Char → List Char × List Char
  | [] => ([], [])
  | c :: cs =>
    if c.isDigit then
      let p := takeDigits cs
      (c :: p.1, p.2)
    else ([], c :: cs)

/-- Match one regex group `(\d{lo,hi})M` where `M` is the literal marker
character: take a maximal digit run, require its length to be in `[lo, hi]`,
then require the marker.  Returns the numeric value of the digits and the
remaining input.  (For digit runs followed by a non-digit literal, greedy
matching with backtracking succeeds exactly when the maximal run has an
admissible length, so this is equivalent to the regex semantics.) -/
def parseField (lo hi : Nat) (marker : Char) (l : List Char) : Option (Nat × List Char) :=
  let p := takeDigits l
  if lo ≤ p.1.length ∧ p.1.length ≤ hi then
    match p.2 with
    | c :: rest => if c = marker then some (digitsToNat p.1, rest) else none
    | [] => none
  else none

/-- Anchored match of
`^(\d{4})年(\d{1,2})月(\d{1,2})日(?:(\d{1,2})時(\d{1,2})分(\d{1,2})秒)?$`
returning the captured numeric groups; the optional time group is `none`
when absent. -/
def parseGroups (l : List Char) : Option (Nat × Nat × Nat × Option (Nat × Nat × Nat)) :=
  match parseField 4 4 '年' l with
  | none => none
  | some (y, r1) =>
    match parseField 1 2 '月' r1 with
    | none => none
    | some (mo, r2) =>
      match parseField 1 2 '日' r2 with
      | none => none
      | some (d, r3) =>
        match r3 with
        | [] => some (y, mo, d, none)
        | _ :: _ =>
          match parseField 1 2 '時' r3 with
          | none => none
          | some (h, r4) =>
            match parseField 1 2 '分' r4 with
            | none => none
            | some (mi, r5) =>
              match parseField 1 2 '秒' r5 with
              | none => none
              | some (s, r6) => if r6 = [] then some (y, mo, d, some (h, mi, s)) else none

/-- `parseJapaneseDateString` from `src/utility.js`: a `Date` input is returned
unchanged; a string is matched against the anchored Japanese date grammar and,
on success, turned into a `Date` via the six-argument constructor (month
converted to 0-indexed); otherwise the result is `null` (here: `none`). -/
def parseJapaneseDateString : DateInput → Option JSDate
  | .date d => some d
  | .str s =>
    match parseGroups s.data with
    | some (y, mo, d, tg) =>
      match tg with
      | none => some (some (mkDate (Int.ofNat y) (Int.ofNat mo - 1) (Int.ofNat d) 0 0 0))
      | some (h, mi, sec) =>
        some (some (mkDate (Int.ofNat y) (Int.ofNat mo - 1) (Int.ofNat d)
          (Int.ofNat h) (Int.ofNat mi) (Int.ofNat sec)))
    | none => none

/-! ### `getAge` and `getAgeFromBirthday` -/

/-- `new Date(x)` for a `DateInput`: a `Date` object's time value is copied;
a string is handed to the host's free-form date parser, which is not part of
this repository and is therefore a parameter `jsParse`. -/
def jsNewDate (jsParse : String → Option Int) : DateInput → JSDate
  | .date d => d
  | .str s => jsParse s

/-- Resolution of one input of `getAge`:
`parseJapaneseDateString(x) || new Date(x)`. -/
def resolveInput (jsParse : String → Option Int) (x : DateInput) : JSDate :=
  (parseJapaneseDateString x).getD (jsNewDate jsParse x)

/-- `getAge` from `src/utility.js`: resolve both inputs, throw when either is
an invalid date, otherwise return the year difference with the
"birthday not yet reached" correction. -/
def getAge (jsParse : String → Option Int) (date1 date2 : DateInput) : Except String Int :=
  let d1 := resolveInput jsParse date1
  let d2 := resolveInput jsParse date2
  match d1, d2 with
  | some t1, some t2 =>
    let age := getFullYear t2 - getFullYear t1
    let monthDiff := getMonth t2 - getMonth t1
    if monthDiff < 0 ∨ (monthDiff = 0 ∧ getDate t2 < getDate t1) then .ok (age - 1)
    else .ok age
  | _, _ => .error "Invalid date provided. Please ensure date1 and date2 are valid date strings."

/-- `getAgeFromBirthday` from `src/utility.js`.  `new Date()` (the current
system time) is passed as the parameter `now`; `birthday` is a valid `Date`. -/
def getAgeFromBirthday (now birthday : Int) : Int :=
  let age := getFullYear now - getFullYear birthday
  let monthDiff := getMonth now - getMonth birthday
  if monthDiff < 0 ∨ (monthDiff = 0 ∧ getDate now < getDate birthday) then age - 1
  else age

/-! ### Spec-side calendar helpers -/

/-- Gregorian leap year. -/
def isLeap (y : Int) : Prop :=
  y % 4 = 0 ∧ (y % 100 ≠ 0 ∨ y % 400 = 0)

instance (y : Int) : Decidable (isLeap y) := by
  unfold isLeap
  infer_instance

/-- Number of days of month `m` in year `y`. -/
def daysInMonth (y m : Int) : Int :=
  if m = 2 then (if isLeap y then 29 else 28)
  else if m = 4 ∨ m = 6 ∨ m = 9 ∨ m = 11 then 30
  else 31

/-- The age algorithm as stated in the specification, on two resolved valid
instants: `year(d2) - year(d1)`, decremented by one exactly when
`month(d2) - month(d1) < 0`, or that difference is `0` and
`day(d2) < day(d1)`; hour, minute and second are not consulted. -/
def specAge (d1 d2 : Int) : Int :=
  let a := getFullYear d2 - getFullYear d1
  if getMonth d2 - getMonth d1 < 0 ∨
      (getMonth d2 - getMonth d1 = 0 ∧ getDate d2 < getDate d1) then a - 1
  else a

/-! ### The record-summation helper `getMaxSumRecordString` -/

/-- A JavaScript property value as far as the helper is concerned: a (finite)
number, the number `NaN`, or a non-number (represented by its string form).
JavaScript numbers are modelled as integers; the non-finite values
`Infinity`/`-Infinity` are outside this model. -/
inductive JSVal where
  | num (x : Int)
  | nan
  | str (s : String)
deriving DecidableEq

/-- A record: own enumerable properties in iteration order. -/
abbrev Record := List (String × JSVal)

/-- Sum over `keys` of the numeric values of a record
(`typeof value === 'number' && !isNaN(value)`; missing keys, `NaN` and
non-numbers are ignored). -/
def scoreRecord (keys : List String) (r : Record) : Int :=
  keys.foldl
    (fun acc k =>
      match List.lookup k r with
      | some (JSVal.num x) => acc + x
      | _ => acc) 0

/-- `currentScore > maxScore`, where `maxScore` may be the initial
`-Infinity` (modelled by `none`), which every finite score beats. -/
def beatsMax (cs : Int) : Option Int → Bool
  | none => true
  | some s => s < cs

/-- The selection loop of `getMaxSumRecordString`: a record replaces the
current maximum exactly when its score is strictly greater. -/
def maxGo (keys : List String) : List Record → Option Record → Option Int → Option Record
  | [], best, _ => best
  | r :: rs, best, bestScore =>
    if beatsMax (scoreRecord keys r) bestScore then
      maxGo keys rs (some r) (some (scoreRecord keys r))
    else
      maxGo keys rs best bestScore

/-- JavaScript string interpolation of a property value. -/
def valToString : JSVal → String
  | .num x => toString x
  | .nan => "NaN"
  | .str s => s

/-- The output format: the record's own `key: value` pairs joined by
`", "`, with a trailing `", "` appended. -/
def formatRecord (r : Record) : String :=
  String.intercalate ", " (r.map (fun p => p.1 ++ ": " ++ valToString p.2)) ++ ", "

/-- `getMaxSumRecordString` from `src/utility.js`.  The `records` argument is
`none` for JavaScript `null`/`undefined`. -/
def getMaxSumRecordString (records : Option (List Record)) (keys : List String) : Option String :=
  match records with
  | none => none
  | some rs =>
    if rs.length = 0 then none
    else
      match maxGo keys rs none none with
      | some r => some (formatRecord r)
      | none => none

/-! ### Spec-side grammar predicate -/

/-- The characters contributed by the optional time-of-day group. -/
def timeSuffix : Option (List Char × List Char × List Char) → List Char
  | none => []
  | some (hl, ml, sl) => hl ++ ('時' :: (ml ++ ('分' :: (sl ++ ['秒']))))

/-- A string matches the anchored structured grammar
`YYYY年MM月DD日`, optionally followed by `HH時MM分SS秒`: it decomposes into a
4-digit year group, 1–2 digit month and day groups, and an optional time
group of three 1–2 digit fields, with the fixed marker characters and
nothing else. -/
def matchesJDateGrammar (s : String) : Prop :=
  ∃ (ys ms ds : List Char) (tg : Option (List Char × List Char × List Char)),
    s.data = ys ++ ('年' :: (ms ++ ('月' :: (ds ++ ('日' :: timeSuffix tg))))) ∧
    ys.all Char.isDigit = true ∧ ys.length = 4 ∧
    ms.all Char.isDigit = true ∧ 1 ≤ ms.length ∧ ms.length ≤ 2 ∧
    ds.all Char.isDigit = true ∧ 1 ≤ ds.length ∧ ds.length ≤ 2 ∧
    (∀ hl ml sl, tg = some (hl, ml, sl) →
      hl.all Char.isDigit = true ∧ 1 ≤ hl.length ∧ hl.length ≤ 2 ∧
      ml.all Char.isDigit = true ∧ 1 ≤ ml.length ∧ ml.length ≤ 2 ∧
      sl.all Char.isDigit = true ∧ 1 ≤ sl.length ∧ sl.length ≤ 2)

/-- The numeric groups produced by the regex match for an optional time
group decomposition. -/
def timeGroupsOf : Option (List Char × List Char × List Char) → Option (Nat × Nat × Nat)
  | none => none
  | some (hl, ml, sl) => some (digitsToNat hl, digitsToNat ml, digitsToNat sl)

/-! ### Auxiliary quantities for the calendar round trip -/

/-- Correction term in the year-of-era recovery of `civilFromDays`. -/
def fcorrI (x : Int) : Int := x - x / 1460 + x / 36524 - x / 146096

/-- Day-of-era of the first day (March 1) of a shifted year-of-era. -/
def gfirstI (yoe : Int) : Int := yoe * 365 + yoe / 4 - yoe / 100

/-! ### Calendar round trip -/

theorem fcorrI_step (x : Int) : fcorrI x ≤ fcorrI (x + 1) := by
  unfold fcorrI
  omega

theorem fcorrI_mono_aux (x : Int) (k : Nat) : fcorrI x ≤ fcorrI (x + k) := by
  induction k with
  | zero => simp
  | succ n ih =>
    have h1 : fcorrI (x + n) ≤ fcorrI (x + n + 1) := fcorrI_step _
    have h2 : x + ((n + 1 : Nat) : Int) = x + n + 1 := by push_cast; ring
    rw [h2]
    exact le_trans ih h1

theorem fcorrI_mono {x y : Int} (h : x ≤ y) : fcorrI x ≤ fcorrI y := by
  have hk : y = x + ((y - x).toNat : Int) := by omega
  rw [hk]
  exact fcorrI_mono_aux x _

set_option maxRecDepth 100000 in
theorem fcorrI_endpoints : ∀ n ∈ List.range 400,
    365 * (n : Int) ≤ fcorrI (gfirstI (n : Int)) ∧
    fcorrI (gfirstI (n : Int) + 364 +
      (if ((n : Int) + 1) % 4 = 0 ∧ (((n : Int) + 1) % 100 ≠ 0 ∨ ((n : Int) + 1) % 400 = 0)
       then 1 else 0))
      ≤ 365 * (n : Int) + 364 := by decide

/-- The year-of-era recovery step of `civilFromDays` inverts the day-of-era
computation of `daysFromCivil`, for any day of a valid shifted year. -/
theorem yoeRecInt (yoe doe doy : Int) (hdoe : doe = yoe * 365 + yoe / 4 - yoe / 100 + doy)
    (h1 : 0 ≤ yoe) (h2 : yoe ≤ 399) (h3 : 0 ≤ doy) (h4 : doy ≤ 365)
    (h5 : doy = 365 → ((yoe + 1) % 4 = 0 ∧ ((yoe + 1) % 100 ≠ 0 ∨ (yoe + 1) % 400 = 0))) :
    (doe - doe / 1460 + doe / 36524 - doe / 146096) / 365 = yoe := by
  have hmem : yoe.toNat ∈ List.range 400 := List.mem_range.mpr (by omega)
  have he := fcorrI_endpoints yoe.toNat hmem
  rw [Int.toNat_of_nonneg h1] at he
  have hg : gfirstI yoe = yoe * 365 + yoe / 4 - yoe / 100 := rfl
  have hmono1 : fcorrI (gfirstI yoe) ≤ fcorrI doe := fcorrI_mono (by omega)
  have hf : fcorrI doe = doe - doe / 1460 + doe / 36524 - doe / 146096 := rfl
  by_cases hc : ((yoe + 1) % 4 = 0 ∧ ((yoe + 1) % 100 ≠ 0 ∨ (yoe + 1) % 400 = 0))
  · rw [if_pos hc] at he
    have hmono2 : fcorrI doe ≤ fcorrI (gfirstI yoe + 364 + 1) := fcorrI_mono (by omega)
    omega
  · rw [if_neg hc] at he
    have hd : doy ≤ 364 := by
      rcases Int.lt_or_le doy 365 with h | h
      · omega
      · exact absurd (h5 (by omega)) hc
    have hmono2 : fcorrI doe ≤ fcorrI (gfirstI yoe + 364 + 0) := fcorrI_mono (by omega)
    omega

/-- The month-position/day recovery of `civilFromDays` inverts the
day-of-year computation of `daysFromCivil`. -/
theorem monthPosRec (mp d doy : Int) (hdoy : doy = (153 * mp + 2) / 5 + d - 1)
    (h3 : 1 ≤ d)
    (h4 : d ≤ (153 * (mp + 1) + 2) / 5 - (153 * mp + 2) / 5) :
    (5 * doy + 2) / 153 = mp ∧ doy - (153 * mp + 2) / 5 + 1 = d := by
  omega

set_option maxHeartbeats 1000000 in
/-- `civilFromDays` is a left inverse of `daysFromCivil` on calendrically
valid dates. -/
theorem civilFromDays_daysFromCivil (y m d : Int) (h1 : 1 ≤ m) (h2 : m ≤ 12)
    (h3 : 1 ≤ d) (h4 : d ≤ daysInMonth y m) :
    civilFromDays (daysFromCivil y m d) = (y, m, d) := by
  simp only [daysFromCivil, civilFromDays]
  set y2 := (if m ≤ 2 then y - 1 else y) with hy2
  set era := y2 / 400 with hera
  set yoe := y2 - era * 400 with hyoe
  set mp := (m + 9) % 12 with hmp
  set doy := (153 * mp + 2) / 5 + d - 1 with hdoy
  set doe := yoe * 365 + yoe / 4 - yoe / 100 + doy with hdoe
  have hy2d : (m ≤ 2 ∧ y2 = y - 1) ∨ (2 < m ∧ y2 = y) := by
    by_cases hm : m ≤ 2
    · exact Or.inl ⟨hm, by rw [hy2, if_pos hm]⟩
    · exact Or.inr ⟨by omega, by rw [hy2, if_neg hm]⟩
  have h4d : (m = 2 ∧ (y % 4 = 0 ∧ (y % 100 ≠ 0 ∨ y % 400 = 0)) ∧ d ≤ 29) ∨
      (m = 2 ∧ ¬(y % 4 = 0 ∧ (y % 100 ≠ 0 ∨ y % 400 = 0)) ∧ d ≤ 28) ∨
      ((m = 4 ∨ m = 6 ∨ m = 9 ∨ m = 11) ∧ d ≤ 30) ∨
      (m ≠ 2 ∧ ¬(m = 4 ∨ m = 6 ∨ m = 9 ∨ m = 11) ∧ d ≤ 31) := by
    simp only [daysInMonth, isLeap] at h4
    split_ifs at h4 with hA hB hC
    · exact Or.inl ⟨hA, hB, h4⟩
    · exact Or.inr (Or.inl ⟨hA, hB, h4⟩)
    · exact Or.inr (Or.inr (Or.inl ⟨hC, h4⟩))
    · exact Or.inr (Or.inr (Or.inr ⟨hA, hC, h4⟩))
  have hyoeB : 0 ≤ yoe ∧ yoe ≤ 399 := by omega
  have hdoyB : 0 ≤ doy ∧ doy ≤ 365 := by omega
  have hgap : d ≤ (153 * (mp + 1) + 2) / 5 - (153 * mp + 2) / 5 := by
    interval_cases m <;> omega
  have hleap : doy = 365 → ((yoe + 1) % 4 = 0 ∧ ((yoe + 1) % 100 ≠ 0 ∨ (yoe + 1) % 400 = 0)) := by
    intro h365
    interval_cases m <;> omega
  have hE : era * 146097 + doe - 719468 + 719468 = era * 146097 + doe := by ring
  rw [hE]
  have hera2 : (era * 146097 + doe) / 146097 = era := by omega
  rw [hera2]
  have hdoe2 : era * 146097 + doe - era * 146097 = doe := by ring
  rw [hdoe2]
  have hyoe2 : (doe - doe / 1460 + doe / 36524 - doe / 146096) / 365 = yoe :=
    yoeRecInt yoe doe doy hdoe hyoeB.1 hyoeB.2 hdoyB.1 hdoyB.2 hleap
  rw [hyoe2]
  have hdoy2 : doe - (365 * yoe + yoe / 4 - yoe / 100) = doy := by omega
  rw [hdoy2]
  have hmp2 := monthPosRec mp d doy hdoy h3 hgap
  rw [hmp2.1]
  clear hE hera2 hdoe2 hyoe2 hdoy2 hgap hleap hyoeB hdoyB h4d h4
  clear hdoe doe
  have hm_rec : (if mp < 10 then mp + 3 else mp - 9) = m := by
    split_ifs <;> omega
  rw [hm_rec]
  simp only [Prod.mk.injEq]
  refine ⟨?_, trivial, hmp2.2⟩
  split_ifs <;> omega

/-! ### Parser correctness -/

theorem daysFromCivil_day_shift (y m d : Int) :
    daysFromCivil y m 1 + (d - 1) = daysFromCivil y m d := by
  simp only [daysFromCivil]
  omega

/-- Field accessors of a `Date` built by the six-argument constructor from
in-range fields (with the month already 0-indexed as the constructor takes
it) read back exactly those fields. -/
theorem mkDate_fields (y m d h mi s : Int) (hY : 100 ≤ y)
    (hM1 : 1 ≤ m) (hM2 : m ≤ 12) (hD1 : 1 ≤ d) (hD2 : d ≤ daysInMonth y m)
    (hh1 : 0 ≤ h) (hh2 : h ≤ 23) (hmi1 : 0 ≤ mi) (hmi2 : mi ≤ 59)
    (hs1 : 0 ≤ s) (hs2 : s ≤ 59) :
    getFullYear (mkDate y (m - 1) d h mi s) = y ∧
    getMonth (mkDate y (m - 1) d h mi s) = m - 1 ∧
    getDate (mkDate y (m - 1) d h mi s) = d ∧
    getHours (mkDate y (m - 1) d h mi s) = h ∧
    getMinutes (mkDate y (m - 1) d h mi s) = mi ∧
    getSeconds (mkDate y (m - 1) d h mi s) = s := by
  have hconstr : mkDate y (m - 1) d h mi s =
      daysFromCivil y m d * 86400 + (h * 3600 + mi * 60 + s) := by
    simp only [mkDate]
    rw [if_neg (by omega)]
    have h12a : (m - 1) / 12 = 0 := by omega
    have h12b : (m - 1) % 12 = m - 1 := by omega
    rw [h12a, h12b]
    have hy0 : y + 0 = y := by ring
    have hm0 : m - 1 + 1 = m := by ring
    rw [hy0, hm0, daysFromCivil_day_shift y m d]
    ring
  have hday : dayNumber (mkDate y (m - 1) d h mi s) = daysFromCivil y m d := by
    rw [hconstr]
    simp only [dayNumber]
    omega
  have hsod : secondOfDay (mkDate y (m - 1) d h mi s) = h * 3600 + mi * 60 + s := by
    rw [hconstr]
    simp only [secondOfDay]
    omega
  have hciv := civilFromDays_daysFromCivil y m d hM1 hM2 hD1 hD2
  refine ⟨?_, ?_, ?_, ?_, ?_, ?_⟩
  · rw [getFullYear, hday, hciv]
  · rw [getMonth, hday, hciv]
  · rw [getDate, hday, hciv]
  · rw [getHours, hsod]; omega
  · rw [getMinutes, hsod]; omega
  · rw [getSeconds, hsod]; omega
theorem takeDigits_of_digits (ds : List Char) (hds : ds.all Char.isDigit = true)
    (c : Char) (hc : c.isDigit = false) (tl : List Char) :
    takeDigits (ds ++ (c :: tl)) = (ds, c :: tl) := by
  induction ds with
  | nil => simp [takeDigits, hc]
  | cons d ds2 ih =>
    simp only [List.all_cons, Bool.and_eq_true] at hds
    simp [takeDigits, hds.1, ih hds.2]

theorem takeDigits_decomp (l : List Char) :
    (takeDigits l).1 ++ (takeDigits l).2 = l ∧
    ((takeDigits l).1.all Char.isDigit = true) ∧
    (∀ c tl, (takeDigits l).2 = c :: tl → c.isDigit = false) := by
  induction l with
  | nil => simp [takeDigits]
  | cons c cs ih =>
    by_cases hc : c.isDigit
    · simp only [takeDigits, if_pos hc]
      refine ⟨by simp [ih.1], by simp [hc, ih.2.1], ih.2.2⟩
    · simp only [takeDigits, if_neg hc]
      refine ⟨rfl, rfl, ?_⟩
      intro c2 tl h2
      cases h2
      simp [hc]

theorem parseField_complete (lo hi : Nat) (marker : Char) (ds rest : List Char)
    (hds : ds.all Char.isDigit = true) (hmk : marker.isDigit = false)
    (hlo : lo ≤ ds.length) (hhi : ds.length ≤ hi) :
    parseField lo hi marker (ds ++ (marker :: rest)) = some (digitsToNat ds, rest) := by
  simp only [parseField, takeDigits_of_digits ds hds marker hmk rest]
  rw [if_pos ⟨hlo, hhi⟩]
  simp

theorem parseField_sound (lo hi : Nat) (marker : Char) (l : List Char) (v : Nat)
    (rest : List Char) (h : parseField lo hi marker l = some (v, rest)) :
    ∃ ds, l = ds ++ (marker :: rest) ∧ ds.all Char.isDigit = true ∧
      lo ≤ ds.length ∧ ds.length ≤ hi ∧ v = digitsToNat ds := by
  obtain ⟨hdec, hall, _⟩ := takeDigits_decomp l
  simp only [parseField] at h
  split_ifs at h with hlen
  rcases htd : (takeDigits l).2 with _ | ⟨c, tl⟩
  · rw [htd] at h
    exact absurd h (by simp)
  · rw [htd] at h
    dsimp only at h
    split_ifs at h with hcm
    simp only [Option.some.injEq, Prod.mk.injEq] at h
    refine ⟨(takeDigits l).1, ?_, hall, ?_, ?_, h.1.symm⟩
    · have hl : l = (takeDigits l).1 ++ (takeDigits l).2 := hdec.symm
      rw [htd, hcm, h.2] at hl
      exact hl
    · exact hlen.1
    · exact hlen.2

theorem parseGroups_complete (ys ms ds : List Char)
    (tg : Option (List Char × List Char × List Char))
    (hy : ys.all Char.isDigit = true) (hylen : ys.length = 4)
    (hm : ms.all Char.isDigit = true) (hmlen1 : 1 ≤ ms.length) (hmlen2 : ms.length ≤ 2)
    (hd : ds.all Char.isDigit = true) (hdlen1 : 1 ≤ ds.length) (hdlen2 : ds.length ≤ 2)
    (htg : ∀ hl ml sl, tg = some (hl, ml, sl) →
      hl.all Char.isDigit = true ∧ 1 ≤ hl.length ∧ hl.length ≤ 2 ∧
      ml.all Char.isDigit = true ∧ 1 ≤ ml.length ∧ ml.length ≤ 2 ∧
      sl.all Char.isDigit = true ∧ 1 ≤ sl.length ∧ sl.length ≤ 2) :
    parseGroups (ys ++ ('年' :: (ms ++ ('月' :: (ds ++ ('日' :: timeSuffix tg)))))) =
      some (digitsToNat ys, digitsToNat ms, digitsToNat ds, timeGroupsOf tg) := by
  have h1 := parseField_complete 4 4 '年' ys
    (ms ++ ('月' :: (ds ++ ('日' :: timeSuffix tg)))) hy (by decide) (by omega) (by omega)
  have h2 := parseField_complete 1 2 '月' ms
    (ds ++ ('日' :: timeSuffix tg)) hm (by decide) hmlen1 hmlen2
  have h3 := parseField_complete 1 2 '日' ds
    (timeSuffix tg) hd (by decide) hdlen1 hdlen2
  simp only [parseGroups, h1, h2, h3]
  match tg with
  | none => rfl
  | some (hl, ml, sl) =>
    obtain ⟨hhl, hhl1, hhl2, hml, hml1, hml2, hsl, hsl1, hsl2⟩ := htg hl ml sl rfl
    obtain ⟨h0, hl2, rfl⟩ : ∃ c cs, hl = c :: cs := by
      cases hl with
      | nil => simp at hhl1
      | cons a b => exact ⟨a, b, rfl⟩
    simp only [timeSuffix]
    have h4 := parseField_complete 1 2 '時' (h0 :: hl2)
      (ml ++ ('分' :: (sl ++ ['秒']))) hhl (by decide) hhl1 hhl2
    have h5 := parseField_complete 1 2 '分' ml (sl ++ ['秒']) hml (by decide) hml1 hml2
    have h6 := parseField_complete 1 2 '秒' sl [] hsl (by decide) hsl1 hsl2
    simp only [List.cons_append, List.append_assoc] at h4 ⊢
    simp only [h4, h5, h6]
    rfl

theorem parseGroups_sound (l : List Char) (Y MO D : Nat) (TG : Option (Nat × Nat × Nat))
    (h : parseGroups l = some (Y, MO, D, TG)) :
    ∃ ys ms ds tg, l = ys ++ ('年' :: (ms ++ ('月' :: (ds ++ ('日' :: timeSuffix tg))))) ∧
      ys.all Char.isDigit = true ∧ ys.length = 4 ∧
      ms.all Char.isDigit = true ∧ 1 ≤ ms.length ∧ ms.length ≤ 2 ∧
      ds.all Char.isDigit = true ∧ 1 ≤ ds.length ∧ ds.length ≤ 2 ∧
      (∀ hl ml sl, tg = some (hl, ml, sl) →
        hl.all Char.isDigit = true ∧ 1 ≤ hl.length ∧ hl.length ≤ 2 ∧
        ml.all Char.isDigit = true ∧ 1 ≤ ml.length ∧ ml.length ≤ 2 ∧
        sl.all Char.isDigit = true ∧ 1 ≤ sl.length ∧ sl.length ≤ 2) ∧
      Y = digitsToNat ys ∧ MO = digitsToNat ms ∧ D = digitsToNat ds ∧
      TG = timeGroupsOf tg := by
  simp only [parseGroups] at h
  cases e1 : parseField 4 4 '年' l with
  | none => rw [e1] at h; exact absurd h (by simp)
  | some p1 =>
  obtain ⟨y1, r1⟩ := p1
  rw [e1] at h
  dsimp only at h
  cases e2 : parseField 1 2 '月' r1 with
  | none => rw [e2] at h; exact absurd h (by simp)
  | some p2 =>
  obtain ⟨mo1, r2⟩ := p2
  rw [e2] at h
  dsimp only at h
  cases e3 : parseField 1 2 '日' r2 with
  | none => rw [e3] at h; exact absurd h (by simp)
  | some p3 =>
  obtain ⟨d1, r3⟩ := p3
  rw [e3] at h
  dsimp only at h
  obtain ⟨ys, hl1, hy, hy4a, hy4b, hyv⟩ := parseField_sound 4 4 '年' l y1 r1 e1
  obtain ⟨ms, hl2, hm, hm1, hm2, hmv⟩ := parseField_sound 1 2 '月' r1 mo1 r2 e2
  obtain ⟨ds, hl3, hd, hd1, hd2, hdv⟩ := parseField_sound 1 2 '日' r2 d1 r3 e3
  rcases r3 with _ | ⟨c, tl⟩
  · dsimp only at h
    simp only [Option.some.injEq, Prod.mk.injEq] at h
    refine ⟨ys, ms, ds, none, ?_, hy, ?_, hm, hm1, hm2, hd, hd1, hd2, ?_, ?_, ?_, ?_, ?_⟩
    · rw [hl1, hl2, hl3]; rfl
    · omega
    · intro hl ml sl hcon
      exact absurd hcon (by simp)
    · omega
    · omega
    · omega
    · rw [← h.2.2.2]; rfl
  · dsimp only at h
    cases e4 : parseField 1 2 '時' (c :: tl) with
    | none => rw [e4] at h; exact absurd h (by simp)
    | some p4 =>
    obtain ⟨h1v, r4⟩ := p4
    rw [e4] at h
    dsimp only at h
    cases e5 : parseField 1 2 '分' r4 with
    | none => rw [e5] at h; exact absurd h (by simp)
    | some p5 =>
    obtain ⟨mi1, r5⟩ := p5
    rw [e5] at h
    dsimp only at h
    cases e6 : parseField 1 2 '秒' r5 with
    | none => rw [e6] at h; exact absurd h (by simp)
    | some p6 =>
    obtain ⟨s1, r6⟩ := p6
    rw [e6] at h
    dsimp only at h
    split_ifs at h with h6e
    subst h6e
    simp only [Option.some.injEq, Prod.mk.injEq] at h
    obtain ⟨hs, hl4, hhs, hhs1, hhs2, hhv⟩ := parseField_sound 1 2 '時' (c :: tl) h1v r4 e4
    obtain ⟨ms2, hl5, hms2, hms21, hms22, hmiv⟩ := parseField_sound 1 2 '分' r4 mi1 r5 e5
    obtain ⟨ss, hl6, hss, hss1, hss2, hsv⟩ := parseField_sound 1 2 '秒' r5 s1 [] e6
    refine ⟨ys, ms, ds, some (hs, ms2, ss), ?_, hy, ?_, hm, hm1, hm2, hd, hd1, hd2,
      ?_, ?_, ?_, ?_, ?_⟩
    · rw [hl1, hl2, hl3]
      simp only [timeSuffix]
      rw [hl4, hl5, hl6]
    · omega
    · intro hl2 ml2 sl2 hcon
      cases hcon
      exact ⟨hhs, hhs1, hhs2, hms2, hms21, hms22, hss, hss1, hss2⟩
    · omega
    · omega
    · omega
    · rw [← h.2.2.2]
      simp only [timeGroupsOf]
      rw [hhv, hmiv, hsv]

/-- C8: an input that is already a `Date` object is returned unchanged by
`parseJapaneseDateString` (pass-through identity). -/
theorem claim_C8_passthrough (d : JSDate) :
    parseJapaneseDateString (DateInput.date d) = some d := rfl

/-- C6: `getAgeFromBirthday birthday` agrees with `getAge birthday today`
evaluated against the same current system date `now`. -/
theorem claim_C6_agree (jsParse : String → Option Int) (now birthday : Int) :
    getAge jsParse (DateInput.date (some birthday)) (DateInput.date (some now)) =
      Except.ok (getAgeFromBirthday now birthday) := by
  simp only [getAge, getAgeFromBirthday, resolveInput, parseJapaneseDateString, jsNewDate,
    Option.getD_some]
  split_ifs <;> rfl

/-- C7: for any input resolving to a valid instant, passing it as both
arguments of `getAge` yields 0. -/
theorem claim_C7_same_date (jsParse : String → Option Int) (x : DateInput) (t : Int)
    (h : resolveInput jsParse x = some t) :
    getAge jsParse x x = Except.ok 0 := by
  simp only [getAge, h]
  rw [if_neg (by omega)]
  simp

/-- C7 witness: the same structured date passed twice gives age 0. -/
theorem claim_C7_witness :
    getAge (fun _ => none) (DateInput.str "2000年1月1日") (DateInput.str "2000年1月1日") =
      Except.ok 0 :=
  claim_C7_same_date (fun _ => none) (DateInput.str "2000年1月1日")
    (mkDate 2000 0 1 0 0 0) (by decide)

/-- C2: on inputs that resolve to valid instants `t1, t2`, `getAge` returns
exactly the specification's algorithm `specAge t1 t2` (which consults only
the year, month and day accessors, never hour/minute/second, and performs no
absolute-value normalization). -/
theorem claim_C2_algorithm (jsParse : String → Option Int) (i1 i2 : DateInput) (t1 t2 : Int)
    (h1 : resolveInput jsParse i1 = some t1) (h2 : resolveInput jsParse i2 = some t2) :
    getAge jsParse i1 i2 = Except.ok (specAge t1 t2) := by
  simp only [getAge, specAge, h1, h2]
  split_ifs <;> rfl

/-- C2 witness: the spec's example `age("2000年1月2日", "2024年1月1日") = 23`,
and a reversed pair gives a negative age. -/
theorem claim_C2_witness :
    getAge (fun _ => none) (DateInput.str "2000年1月2日") (DateInput.str "2024年1月1日") =
      Except.ok (specAge (mkDate 2000 0 2 0 0 0) (mkDate 2024 0 1 0 0 0)) ∧
    specAge (mkDate 2000 0 2 0 0 0) (mkDate 2024 0 1 0 0 0) = 23 ∧
    specAge (mkDate 2024 0 1 0 0 0) (mkDate 2000 0 2 0 0 0) = -24 :=
  ⟨claim_C2_algorithm (fun _ => none) _ _ _ _ (by decide) (by decide), by decide, by decide⟩

/-- C3: each input of `getAge` is resolved by the structured parser first and
by the host's generic parser only when the structured parser does not match;
`getAge` signals `InvalidDateError` exactly when at least one input resolves
to no valid instant. -/
theorem claim_C3_resolution (jsParse : String → Option Int) (i1 i2 : DateInput) :
    (∀ d, parseJapaneseDateString i1 = some d → resolveInput jsParse i1 = d) ∧
    (parseJapaneseDateString i1 = none → resolveInput jsParse i1 = jsNewDate jsParse i1) ∧
    ((∃ e, getAge jsParse i1 i2 = Except.error e) ↔
      (resolveInput jsParse i1 = none ∨ resolveInput jsParse i2 = none)) := by
  refine ⟨?_, ?_, ?_⟩
  · intro d hd
    simp [resolveInput, hd]
  · intro hd
    simp [resolveInput, hd]
  · rcases hr1 : resolveInput jsParse i1 with _ | t1 <;>
      rcases hr2 : resolveInput jsParse i2 with _ | t2 <;>
      simp [getAge, hr1, hr2]
    intro x
    split_ifs <;> simp

/-- C3 witness: an unparseable string (rejected by both routes) makes
`getAge` raise. -/
theorem claim_C3_witness :
    ∃ e, getAge (fun _ => none) (DateInput.str "not-a-date") (DateInput.str "2024年1月1日") =
      Except.error e :=
  (claim_C3_resolution (fun _ => none) (DateInput.str "not-a-date")
    (DateInput.str "2024年1月1日")).2.2.mpr (Or.inl (by decide))

theorem matches_has_year_marker {s : String} (h : matchesJDateGrammar s) : '年' ∈ s.data := by
  obtain ⟨ys, ms, ds, tg, hdec, _⟩ := h
  rw [hdec]
  simp

/-- C4: a string that does not match the anchored grammar (wrong separators,
non-numeric fields, or extra characters) is mapped to the absence sentinel
`none`; the parser is a total function, so it never raises. -/
theorem claim_C4_nonmatching (s : String) (h : ¬ matchesJDateGrammar s) :
    parseJapaneseDateString (DateInput.str s) = none := by
  cases hpg : parseGroups s.data with
  | none => simp [parseJapaneseDateString, hpg]
  | some g =>
    obtain ⟨Y, MO, D, TG⟩ := g
    obtain ⟨ys, ms, ds, tg, hdec, hy, hylen, hm, hm1, hm2, hd, hd1, hd2, htg, _⟩ :=
      parseGroups_sound s.data Y MO D TG hpg
    exact absurd ⟨ys, ms, ds, tg, hdec, hy, hylen, hm, hm1, hm2, hd, hd1, hd2, htg⟩ h

/-- C4 witness: a slash-separated date does not match and parses to `none`. -/
theorem claim_C4_witness : parseJapaneseDateString (DateInput.str "2024/01/01") = none :=
  claim_C4_nonmatching "2024/01/01"
    (fun h => absurd (matches_has_year_marker h) (by decide))

/-- C5: every string matching the grammar parses to a non-`none` result, with
no range validation of the numeric fields (e.g. month 13 or day 32 is still
accepted). -/
theorem claim_C5_no_range_validation (s : String) (h : matchesJDateGrammar s) :
    parseJapaneseDateString (DateInput.str s) ≠ none := by
  obtain ⟨ys, ms, ds, tg, hdec, hy, hylen, hm, hm1, hm2, hd, hd1, hd2, htg⟩ := h
  have hc := parseGroups_complete ys ms ds tg hy hylen hm hm1 hm2 hd hd1 hd2 htg
  rw [← hdec] at hc
  cases tg with
  | none => simp [parseJapaneseDateString, hc, timeGroupsOf]
  | some p =>
    obtain ⟨hl, ml, sl⟩ := p
    simp [parseJapaneseDateString, hc, timeGroupsOf]

/-- C5 witness: month 13, day 32 still yields a result. -/
theorem claim_C5_witness : parseJapaneseDateString (DateInput.str "2024年13月32日") ≠ none :=
  claim_C5_no_range_validation "2024年13月32日"
    ⟨['2','0','2','4'], ['1','3'], ['3','2'], none, by decide, by decide, by decide, by decide,
      by decide, by decide, by decide, by decide, by decide,
      fun hl ml sl hcon => Option.noConfusion hcon⟩

/-- C1 counterexample: the grammatically matching string `"2024年13月1日"`
(month field 13) parses to a `Date` whose year accessor is 2025, not the
literal 2024, because the host constructor normalizes the out-of-range
month into the next year. -/
theorem claim_C1_counterexample :
    parseJapaneseDateString (DateInput.str "2024年13月1日") =
      some (some (mkDate 2024 12 1 0 0 0)) ∧
    getFullYear (mkDate 2024 12 1 0 0 0) = 2025 := by
  constructor
  · decide
  · decide

/-- C1 (amended): for every string matching the structured grammar whose
year field is at least 100 and whose month, day and (when present) hour,
minute and second fields are calendrically in range, the parsed `Date`'s
accessors read back exactly the literal digit values (month externally
1-indexed), with zero time-of-day when the time group is absent.  Out-of-range
fields are normalized away by the host constructor (see the counterexample),
and years 0–99 are mapped to 1900–1999. -/
theorem claim_C1_literal_fields (ys ms ds : List Char)
    (tg : Option (List Char × List Char × List Char)) (s : String)
    (hdec : s.data = ys ++ ('年' :: (ms ++ ('月' :: (ds ++ ('日' :: timeSuffix tg))))))
    (hy : ys.all Char.isDigit = true) (hylen : ys.length = 4)
    (hm : ms.all Char.isDigit = true) (hm1 : 1 ≤ ms.length) (hm2 : ms.length ≤ 2)
    (hd : ds.all Char.isDigit = true) (hd1 : 1 ≤ ds.length) (hd2 : ds.length ≤ 2)
    (htg : ∀ hl ml sl, tg = some (hl, ml, sl) →
      hl.all Char.isDigit = true ∧ 1 ≤ hl.length ∧ hl.length ≤ 2 ∧
      ml.all Char.isDigit = true ∧ 1 ≤ ml.length ∧ ml.length ≤ 2 ∧
      sl.all Char.isDigit = true ∧ 1 ≤ sl.length ∧ sl.length ≤ 2)
    (hY : 100 ≤ digitsToNat ys)
    (hM1 : 1 ≤ digitsToNat ms) (hM2 : digitsToNat ms ≤ 12)
    (hD1 : 1 ≤ digitsToNat ds)
    (hD2 : ((digitsToNat ds : Int)) ≤
      daysInMonth ((digitsToNat ys : Int)) ((digitsToNat ms : Int)))
    (hT : ∀ hl ml sl, tg = some (hl, ml, sl) →
      digitsToNat hl ≤ 23 ∧ digitsToNat ml ≤ 59 ∧ digitsToNat sl ≤ 59) :
    ∃ t : Int, parseJapaneseDateString (DateInput.str s) = some (some t) ∧
      getFullYear t = ((digitsToNat ys : Int)) ∧
      getMonth t + 1 = ((digitsToNat ms : Int)) ∧
      getDate t = ((digitsToNat ds : Int)) ∧
      (tg = none → getHours t = 0 ∧ getMinutes t = 0 ∧ getSeconds t = 0) ∧
      (∀ hl ml sl, tg = some (hl, ml, sl) →
        getHours t = ((digitsToNat hl : Int)) ∧
        getMinutes t = ((digitsToNat ml : Int)) ∧
        getSeconds t = ((digitsToNat sl : Int))) := by
  have hc := parseGroups_complete ys ms ds tg hy hylen hm hm1 hm2 hd hd1 hd2 htg
  rw [← hdec] at hc
  cases tg with
  | none =>
    have hf := mkDate_fields ((digitsToNat ys : Int)) ((digitsToNat ms : Int))
      ((digitsToNat ds : Int)) 0 0 0 (by exact_mod_cast hY) (by exact_mod_cast hM1)
      (by exact_mod_cast hM2) (by exact_mod_cast hD1) hD2
      (by omega) (by omega) (by omega) (by omega) (by omega) (by omega)
    refine ⟨mkDate ((digitsToNat ys : Int)) (((digitsToNat ms : Int)) - 1)
      ((digitsToNat ds : Int)) 0 0 0, ?_, hf.1, by omega, hf.2.2.1, ?_, ?_⟩
    · simp only [parseJapaneseDateString, hc, timeGroupsOf]
      rfl
    · intro _
      exact ⟨hf.2.2.2.1, hf.2.2.2.2.1, hf.2.2.2.2.2⟩
    · intro hl ml sl hcon
      exact Option.noConfusion hcon
  | some p =>
    obtain ⟨hl, ml, sl⟩ := p
    obtain ⟨hH, hMI, hS⟩ := hT hl ml sl rfl
    have hf := mkDate_fields ((digitsToNat ys : Int)) ((digitsToNat ms : Int))
      ((digitsToNat ds : Int)) ((digitsToNat hl : Int)) ((digitsToNat ml : Int))
      ((digitsToNat sl : Int)) (by exact_mod_cast hY) (by exact_mod_cast hM1)
      (by exact_mod_cast hM2) (by exact_mod_cast hD1) hD2
      (by omega) (by exact_mod_cast hH) (by omega) (by exact_mod_cast hMI)
      (by omega) (by exact_mod_cast hS)
    refine ⟨mkDate ((digitsToNat ys : Int)) (((digitsToNat ms : Int)) - 1)
      ((digitsToNat ds : Int)) ((digitsToNat hl : Int)) ((digitsToNat ml : Int))
      ((digitsToNat sl : Int)), ?_, hf.1, by omega, hf.2.2.1, ?_, ?_⟩
    · simp only [parseJapaneseDateString, hc, timeGroupsOf]
      rfl
    · intro hcon
      exact Option.noConfusion hcon
    · intro hl2 ml2 sl2 hcon
      cases hcon
      exact ⟨hf.2.2.2.1, hf.2.2.2.2.1, hf.2.2.2.2.2⟩

/-- C1 witness: an in-range structured string with a time group parses to a
`Date` whose accessors are exactly the literal fields. -/
theorem claim_C1_witness :
    ∃ t : Int, parseJapaneseDateString (DateInput.str "1999年12月31日23時59分58秒") =
        some (some t) ∧
      getFullYear t = 1999 ∧ getMonth t + 1 = 12 ∧ getDate t = 31 ∧
      getHours t = 23 ∧ getMinutes t = 59 ∧ getSeconds t = 58 := by
  obtain ⟨t, h1, h2, h3, h4, _, h6⟩ := claim_C1_literal_fields
    ['1','9','9','9'] ['1','2'] ['3','1'] (some (['2','3'], ['5','9'], ['5','8']))
    "1999年12月31日23時59分58秒" (by decide) (by decide) (by decide) (by decide)
    (by decide) (by decide) (by decide) (by decide) (by decide)
    (by intro hl ml sl hcon; cases hcon; decide)
    (by decide) (by decide) (by decide) (by decide) (by decide)
    (by intro hl ml sl hcon; cases hcon; decide)
  obtain ⟨hh, hmi, hs⟩ := h6 ['2','3'] ['5','9'] ['5','8'] rfl
  exact ⟨t, h1, h2.trans (by decide), h3.trans (by decide), h4.trans (by decide),
    hh.trans (by decide), hmi.trans (by decide), hs.trans (by decide)⟩

theorem maxGo_stay (keys : List String) : ∀ (rs : List Record) (cur : Record) (cs : Int),
    cs = scoreRecord keys cur → (∀ r ∈ rs, scoreRecord keys r ≤ cs) →
    maxGo keys rs (some cur) (some cs) = some cur := by
  intro rs
  induction rs with
  | nil => intro cur cs _ _; rfl
  | cons r rs2 ih =>
    intro cur cs h1 h2
    have hr : scoreRecord keys r ≤ cs := h2 r (by simp)
    simp only [maxGo]
    rw [if_neg (by simp only [beatsMax, decide_eq_true_eq]; omega)]
    exact ih cur cs h1 (fun r2 hr2 => h2 r2 (List.mem_cons_of_mem _ hr2))

theorem maxGo_first (keys : List String) : ∀ (rs : List Record) (cur : Record) (cs : Int)
    (i : Nat) (hi : i < rs.length),
    cs = scoreRecord keys cur →
    cs < scoreRecord keys (rs.get ⟨i, hi⟩) →
    (∀ j (hj : j < rs.length), scoreRecord keys (rs.get ⟨j, hj⟩) ≤ scoreRecord keys (rs.get ⟨i, hi⟩)) →
    (∀ j (hj : j < i), scoreRecord keys (rs.get ⟨j, Nat.lt_trans hj hi⟩) <
      scoreRecord keys (rs.get ⟨i, hi⟩)) →
    maxGo keys rs (some cur) (some cs) = some (rs.get ⟨i, hi⟩) := by
  intro rs
  induction rs with
  | nil => intro cur cs i hi; exact absurd hi (by simp)
  | cons r rs2 ih =>
    intro cur cs i hi h1 h2 h3 h4
    cases i with
    | zero =>
      simp only [List.get] at h2 h3 ⊢
      simp only [maxGo]
      rw [if_pos (by simp only [beatsMax, decide_eq_true_eq]; omega)]
      apply maxGo_stay keys rs2 r (scoreRecord keys r) rfl
      intro r2 hr2
      obtain ⟨⟨j, hj⟩, rfl⟩ := List.mem_iff_get.mp hr2
      exact h3 (j + 1) (by simp only [List.length_cons]; omega)
    | succ k =>
      have hk : k < rs2.length := by simpa using hi
      have htgt : (r :: rs2).get ⟨k + 1, hi⟩ = rs2.get ⟨k, hk⟩ := rfl
      have hr0 : scoreRecord keys r < scoreRecord keys (rs2.get ⟨k, hk⟩) := by
        have := h4 0 (Nat.succ_pos k)
        rw [htgt] at this
        exact this
      rw [htgt] at h2 h3 h4
      simp only [maxGo]
      by_cases hb : cs < scoreRecord keys r
      · rw [if_pos (by simp only [beatsMax, decide_eq_true_eq]; omega)]
        exact ih r (scoreRecord keys r) k hk rfl hr0
          (fun j hj => h3 (j + 1) (by simp only [List.length_cons]; omega))
          (fun j hj => h4 (j + 1) (by omega))
      · rw [if_neg (by simp only [beatsMax, decide_eq_true_eq]; omega)]
        exact ih cur cs k hk h1 (by omega)
          (fun j hj => h3 (j + 1) (by simp only [List.length_cons]; omega))
          (fun j hj => h4 (j + 1) (by omega))

/-- C9: when the maximal key-sum is attained, the first record (in input
order) attaining it is the one selected: a later record replaces the current
maximum only under strict greater-than comparison, never on equality. -/
theorem claim_C9_first_max_wins (keys : List String) (rs : List Record) (i : Nat)
    (hi : i < rs.length)
    (hmax : ∀ j (hj : j < rs.length),
      scoreRecord keys (rs.get ⟨j, hj⟩) ≤ scoreRecord keys (rs.get ⟨i, hi⟩))
    (hfirst : ∀ j (hj : j < i), scoreRecord keys (rs.get ⟨j, Nat.lt_trans hj hi⟩) <
      scoreRecord keys (rs.get ⟨i, hi⟩)) :
    maxGo keys rs none none = some (rs.get ⟨i, hi⟩) ∧
    getMaxSumRecordString (some rs) keys = some (formatRecord (rs.get ⟨i, hi⟩)) := by
  rcases rs with _ | ⟨r0, rs2⟩
  · exact absurd hi (by simp)
  have hsel : maxGo keys (r0 :: rs2) none none = some ((r0 :: rs2).get ⟨i, hi⟩) := by
    simp only [maxGo]
    rw [if_pos (show beatsMax (scoreRecord keys r0) none = true from rfl)]
    cases i with
    | zero =>
      apply maxGo_stay keys rs2 r0 (scoreRecord keys r0) rfl
      intro r2 hr2
      obtain ⟨⟨j, hj⟩, rfl⟩ := List.mem_iff_get.mp hr2
      exact hmax (j + 1) (by simp only [List.length_cons]; omega)
    | succ k =>
      have hk : k < rs2.length := by simpa using hi
      have htgt : (r0 :: rs2).get ⟨k + 1, hi⟩ = rs2.get ⟨k, hk⟩ := rfl
      rw [htgt]
      have hr0 : scoreRecord keys r0 < scoreRecord keys (rs2.get ⟨k, hk⟩) := by
        have := hfirst 0 (Nat.succ_pos k)
        rw [htgt] at this
        exact this
      refine maxGo_first keys rs2 r0 (scoreRecord keys r0) k hk rfl hr0 ?_ ?_
      · intro j hj
        have := hmax (j + 1) (by simp only [List.length_cons]; omega)
        rw [htgt] at this
        exact this
      · intro j hj
        have := hfirst (j + 1) (by omega)
        rw [htgt] at this
        exact this
  refine ⟨hsel, ?_⟩
  simp only [getMaxSumRecordString]
  rw [if_neg (by simp), hsel]

/-- C9 witness: two records tie on the counted key; the first one is
selected and formatted. -/
theorem claim_C9_witness :
    maxGo ["a"] [[("a", JSVal.num 2), ("b", JSVal.str "x")], [("a", JSVal.num 2)]] none none =
      some [("a", JSVal.num 2), ("b", JSVal.str "x")] ∧
    getMaxSumRecordString
        (some [[("a", JSVal.num 2), ("b", JSVal.str "x")], [("a", JSVal.num 2)]]) ["a"] =
      some (formatRecord [("a", JSVal.num 2), ("b", JSVal.str "x")]) :=
  claim_C9_first_max_wins ["a"]
    [[("a", JSVal.num 2), ("b", JSVal.str "x")], [("a", JSVal.num 2)]] 0
    (by decide) (by decide) (by decide)

theorem maxGo_mem (keys : List String) : ∀ (rs : List Record) (cur : Record) (cs : Int),
    ∃ r, maxGo keys rs (some cur) (some cs) = some r ∧ (r = cur ∨ r ∈ rs) := by
  intro rs
  induction rs with
  | nil => intro cur cs; exact ⟨cur, rfl, Or.inl rfl⟩
  | cons r rs2 ih =>
    intro cur cs
    simp only [maxGo]
    by_cases hb : beatsMax (scoreRecord keys r) (some cs) = true
    · rw [if_pos hb]
      obtain ⟨r2, hr1, hr2⟩ := ih r (scoreRecord keys r)
      refine ⟨r2, hr1, Or.inr ?_⟩
      rcases hr2 with h | h
      · simp [h]
      · simp [h]
    · rw [if_neg hb]
      obtain ⟨r2, hr1, hr2⟩ := ih cur cs
      refine ⟨r2, hr1, ?_⟩
      rcases hr2 with h | h
      · exact Or.inl h
      · exact Or.inr (List.mem_cons_of_mem _ h)

/-- C10: the helper returns `null` for a `null`/`undefined` or empty records
argument, and for every non-empty records list (all modelled values being
finite numbers or non-numbers) it selects some record and returns its
formatted `key: value` pairs joined by `", "` with a trailing `", "`. -/
theorem claim_C10_null_and_format (keys : List String) (rs : List Record) (hne : rs ≠ []) :
    getMaxSumRecordString none keys = none ∧
    getMaxSumRecordString (some []) keys = none ∧
    ∃ r, r ∈ rs ∧ getMaxSumRecordString (some rs) keys = some (formatRecord r) := by
  refine ⟨rfl, rfl, ?_⟩
  rcases rs with _ | ⟨r0, rs2⟩
  · exact absurd rfl hne
  simp only [getMaxSumRecordString, maxGo]
  rw [if_neg (by simp), if_pos (show beatsMax (scoreRecord keys r0) none = true from rfl)]
  obtain ⟨r, h1, h2⟩ := maxGo_mem keys rs2 r0 (scoreRecord keys r0)
  rw [h1]
  refine ⟨r, ?_, rfl⟩
  rcases h2 with h | h
  · simp [h]
  · simp [h]

/-- C10 witness. -/
theorem claim_C10_witness :
    getMaxSumRecordString none ["a"] = none ∧
    getMaxSumRecordString (some []) ["a"] = none ∧
    ∃ r, r ∈ [[("a", JSVal.num 1)]] ∧
      getMaxSumRecordString (some [[("a", JSVal.num 1)]]) ["a"] = some (formatRecord r) :=
  claim_C10_null_and_format ["a"] [[("a", JSVal.num 1)]] (by decide)
